import Mathlib

/-!
Verification of the schedule extraction and time-normalization engine of the
Ottawa pool schedule scraper (`src/scrape.py`).

The Python functions `parse_time_str`, `parse_time_range`, `parse_from_table`,
`parse_from_text` and the strategy cascade of `scrape_pool` are shallowly
embedded below.  Regular expressions are embedded by hand-rolled matchers that
mirror Python's leftmost, greedy, backtracking semantics for the concrete
patterns appearing in the source.  `\d`, `\w` and `\s` are modelled over the
character classes actually exercised by the data (ASCII digits and word
characters; Python's whitespace class including the no-break space).
Machine-level concerns (DOM querying, page fetching) are abstracted as the
already-extracted header texts, row cell texts and container texts that the
Python code reads off the page.
-/

/-- Python `str.strip` whitespace (the characters relevant here). -/
def pyIsSpace (c : Char) : Bool :=
  c = ' ' || c = '\t' || c = '\n' || c = '\r' || c = '\x0b' || c = '\x0c' || c = '\u00a0'

/-- Python `str.strip()` on a character list. -/
def pyStrip (cs : List Char) : List Char :=
  ((cs.dropWhile pyIsSpace).reverse.dropWhile pyIsSpace).reverse

/-- Python `str.strip()` on a string. -/
def pyStripStr (s : String) : String := ⟨pyStrip s.data⟩

/-- Python `str.lower()` as a character list (ASCII lowering). -/
def lowerL (s : String) : List Char := s.data.map Char.toLower

/-- Numeric value of an ASCII digit, as used by Python `int()`. -/
def digitVal (c : Char) : Nat := c.toNat - '0'.toNat

/-- `needle` is an initial segment of `hay` (used to model Python `in`). -/
def leadsList : List Char → List Char → Bool
  | [], _ => true
  | _ :: _, [] => false
  | n :: ns, h :: hs => n = h && leadsList ns hs

/-- Python substring test `needle in hay` on character lists. -/
def isSubstr (needle : List Char) : List Char → Bool
  | [] => leadsList needle []
  | c :: cs => leadsList needle (c :: cs) || isSubstr needle cs

/-- `pat in s.lower()` for an already-lowercase pattern `pat`. -/
def containsI (pat : String) (s : String) : Bool := isSubstr pat.data (lowerL s)

/-- Case-insensitive: `pat` (given lowercase) matches the start of `cs`. -/
def leadsLower (pat : String) (cs : List Char) : Bool :=
  leadsList pat.data (cs.map Char.toLower)

/-- Python regex `\w` over the characters exercised here. -/
def isWordChar (c : Char) : Bool := c.isAlphanum || c = '_'

/-! ### `parse_time_str` (src/scrape.py lines 45-55)

Regex: `(\d{1,2})(?::(\d{2}))?\s*(am|pm)` matched with `re.match` against the
stripped, lowercased input. -/

/-- `\s*(am|pm)` on the lowercased input; `some true` means `pm`. -/
def matchMarkerL (tl : List Char) : Option Bool :=
  match tl.dropWhile pyIsSpace with
  | 'a' :: 'm' :: _ => some false
  | 'p' :: 'm' :: _ => some true
  | _ => none

/-- `:(\d{2})` at the start of `tl`: minute value and the rest. -/
def matchMinute (tl : List Char) : Option (Nat × List Char) :=
  match tl with
  | ':' :: a :: b :: rest =>
      if a.isDigit && b.isDigit then some (10 * digitVal a + digitVal b, rest) else none
  | _ => none

/-- Continuation after the hour when the optional `:MM` group is skipped. -/
def timeNoMin (h : Nat) (tl : List Char) : Option (Nat × Nat × Bool) :=
  match matchMarkerL tl with
  | some pm => some (h, 0, pm)
  | none => none

/-- Continuation after the hour: greedy optional `:MM`, backtracking to the
skipped branch when the am/pm marker cannot follow. -/
def timeFrom (h : Nat) (tl : List Char) : Option (Nat × Nat × Bool) :=
  match matchMinute tl with
  | some (mn, tl2) =>
      (match matchMarkerL tl2 with
       | some pm => some (h, mn, pm)
       | none => timeNoMin h tl)
  | none => timeNoMin h tl

/-- The whole time regex at position 0; `\d{1,2}` greedily tries the
two-digit hour first and backtracks to one digit. -/
def matchTime : List Char → Option (Nat × Nat × Bool)
  | c1 :: rest =>
      if c1.isDigit then
        match rest with
        | c2 :: rest2 =>
            if c2.isDigit then
              (match timeFrom (10 * digitVal c1 + digitVal c2) rest2 with
               | some r => some r
               | none => timeFrom (digitVal c1) rest)
            else timeFrom (digitVal c1) rest
        | [] => timeFrom (digitVal c1) []
      else none
  | [] => none

/-- `s.strip().lower()`, then the en dash replaced by `-` and the no-break
space (U+00A0) replaced by a plain space. -/
def normalizeChars (cs : List Char) : List Char :=
  ((pyStrip cs).map Char.toLower).map
    (fun c => if c = '–' then '-' else if c = '\u00a0' then ' ' else c)

/-- `parse_time_str` on a character list. -/
def parse_time_str2 (cs : List Char) : Option Nat :=
  match matchTime (normalizeChars cs) with
  | none => none
  | some (h, mn, pm) =>
      let h1 := if pm ∧ h ≠ 12 then h + 12 else h
      let h2 := if (¬ pm) ∧ h1 = 12 then 0 else h1
      some (h2 * 60 + mn)

/-- `parse_time_str` (src/scrape.py line 45). -/
def parse_time_str (s : String) : Option Nat := parse_time_str2 s.data

/-! ### `parse_time_range` (src/scrape.py lines 58-84)

Range regex (case-insensitive, `re.match`):
`(\d{1,2}(?::\d{2})?(?:\s*[ap]m)?)\s*[-–]\s*(\d{1,2}(?::\d{2})?\s*[ap]m)`.
The two captured endpoint substrings are post-processed exactly as in the
source: a start without an am/pm marker inherits the first marker found in
the end capture, and both captures go through `parse_time_str`. -/

/-- `re.sub(pat, rep, _)` for a whole-word, case-insensitive literal pattern
(`\b pat \b`), scanning left to right.  `pat` is given lowercase and ends in a
word character, so scanning resumes with the previous-is-word flag set. -/
def subWordIAux (pat rep : List Char) : Nat → Bool → List Char → List Char
  | 0, _, cs => cs
  | _ + 1, _, [] => []
  | n + 1, prevW, c :: cs =>
      if !prevW && leadsList pat ((c :: cs).map Char.toLower)
          && (match (c :: cs).drop pat.length with
              | [] => true
              | r :: _ => !(isWordChar r)) then
        rep ++ subWordIAux pat rep n true ((c :: cs).drop pat.length)
      else
        c :: subWordIAux pat rep n (isWordChar c) cs

/-- Whole-word case-insensitive replacement, e.g. `\bnoon\b` by `12:00 pm`. -/
def subWordI (pat rep : String) (cs : List Char) : List Char :=
  subWordIAux pat.data rep.data cs.length false cs

/-- A character the range text is split on (`re.split(r"[,\n]+", _)`). -/
def isSplitChar (c : Char) : Bool := c = ',' || c = '\n'

/-- `re.split(r"[,\n]+", _)`: split on maximal runs of commas and newlines. -/
def splitRunsAux : Nat → List Char → List Char → List (List Char)
  | 0, acc, _ => [acc.reverse]
  | _ + 1, acc, [] => [acc.reverse]
  | n + 1, acc, c :: cs =>
      if isSplitChar c then acc.reverse :: splitRunsAux n [] (cs.dropWhile isSplitChar)
      else splitRunsAux n (c :: acc) cs

/-- `re.split(r"[,\n]+", _)` over a character list. -/
def splitRuns (cs : List Char) : List (List Char) := splitRunsAux cs.length [] cs

/-- `:\d{2}` at the start of `tl`, returning the consumed capture and rest. -/
def matchMinuteC (tl : List Char) : Option (List Char × List Char) :=
  match tl with
  | ':' :: a :: b :: rest =>
      if a.isDigit && b.isDigit then some ([':', a, b], rest) else none
  | _ => none

/-- `\s*[ap]m` (case-insensitive), returning the consumed capture and rest. -/
def matchMarkerI (tl : List Char) : Option (List Char × List Char) :=
  match tl.dropWhile pyIsSpace with
  | c1 :: c2 :: rest =>
      if (c1.toLower = 'a' || c1.toLower = 'p') && c2.toLower = 'm' then
        some (tl.takeWhile pyIsSpace ++ [c1, c2], rest)
      else none
  | _ => none

/-- `re.search(r"[ap]m", _, re.I)` succeeds somewhere in the list. -/
def containsMarkerI : List Char → Bool
  | c1 :: c2 :: rest =>
      ((c1.toLower = 'a' || c1.toLower = 'p') && c2.toLower = 'm') || containsMarkerI (c2 :: rest)
  | _ => false

/-- First `[ap]m` occurrence (case-insensitive), as the matched characters. -/
def findMarkerI : List Char → Option (List Char)
  | c1 :: c2 :: rest =>
      if (c1.toLower = 'a' || c1.toLower = 'p') && c2.toLower = 'm' then some [c1, c2]
      else findMarkerI (c2 :: rest)
  | _ => none

/-- End capture after its hour digits, optional `:MM` skipped. -/
def g2FromNoMin (capH : List Char) (tl : List Char) : Option (List Char) :=
  match matchMarkerI tl with
  | some (capA, _) => some (capH ++ capA)
  | none => none

/-- End capture after its hour digits: greedy optional `:MM` with backtracking,
then the mandatory `\s*[ap]m`. -/
def g2From (capH : List Char) (tl : List Char) : Option (List Char) :=
  match matchMinuteC tl with
  | some (capM, tl2) =>
      (match matchMarkerI tl2 with
       | some (capA, _) => some (capH ++ capM ++ capA)
       | none => g2FromNoMin capH tl)
  | none => g2FromNoMin capH tl

/-- The END endpoint `\d{1,2}(?::\d{2})?\s*[ap]m` with its capture. -/
def matchG2 : List Char → Option (List Char)
  | c1 :: rest =>
      if c1.isDigit then
        match rest with
        | c2 :: rest2 =>
            if c2.isDigit then
              (match g2From [c1, c2] rest2 with
               | some r => some r
               | none => g2From [c1] rest)
            else g2From [c1] rest
        | [] => g2From [c1] []
      else none
  | [] => none

/-- Separator `\s*[-–]\s*` followed by the END endpoint. -/
def afterG1 (cap1 : List Char) (tl : List Char) : Option (List Char × List Char) :=
  match tl.dropWhile pyIsSpace with
  | c :: rest =>
      if c = '-' || c = '–' then
        match matchG2 (rest.dropWhile pyIsSpace) with
        | some cap2 => some (cap1, cap2)
        | none => none
      else none
  | [] => none

/-- START capture continuation when the optional `:MM` group is skipped:
greedy optional `\s*[ap]m` with backtracking into the separator. -/
def g1FromNoMin (capH : List Char) (tl : List Char) : Option (List Char × List Char) :=
  match matchMarkerI tl with
  | some (capA, tl2) =>
      (match afterG1 (capH ++ capA) tl2 with
       | some r => some r
       | none => afterG1 capH tl)
  | none => afterG1 capH tl

/-- START capture continuation after its hour digits: greedy optional `:MM`
with backtracking, then the optional marker and the separator. -/
def g1From (capH : List Char) (tl : List Char) : Option (List Char × List Char) :=
  match matchMinuteC tl with
  | some (capM, tl2) =>
      (match g1FromNoMin (capH ++ capM) tl2 with
       | some r => some r
       | none => g1FromNoMin capH tl)
  | none => g1FromNoMin capH tl

/-- The whole range regex at position 0, returning the two captures. -/
def matchRange : List Char → Option (List Char × List Char)
  | c1 :: rest =>
      if c1.isDigit then
        match rest with
        | c2 :: rest2 =>
            if c2.isDigit then
              (match g1From [c1, c2] rest2 with
               | some r => some r
               | none => g1From [c1] rest)
            else g1From [c1] rest
        | [] => g1From [c1] []
      else none
  | [] => none

/-- `start_str += " " + ap_match.group(1)` when START has no am/pm marker. -/
def startWithMarker (startCap endCap : List Char) : List Char :=
  if containsMarkerI startCap then startCap
  else
    match findMarkerI endCap with
    | some mk => startCap ++ ' ' :: mk
    | none => startCap

/-- The per-token body of the loop in `parse_time_range`. -/
def tokenParse (part : List Char) : Option (Nat × Nat) :=
  let p := pyStrip part
  if p = [] then none
  else
    match matchRange p with
    | none => none
    | some (startCap, endCap) =>
        match parse_time_str2 (startWithMarker startCap endCap), parse_time_str2 endCap with
        | some a, some b => some (a, b)
        | _, _ => none

/-- `if not text or text.lower() in ("n/a", "—", "-", "")`. -/
def emptyCellGuard (text : List Char) : Bool :=
  text.isEmpty || text.map Char.toLower = "n/a".data
    || text.map Char.toLower = "—".data || text.map Char.toLower = "-".data

/-- `parse_time_range` (src/scrape.py line 58): pairs are (start, end) in
minutes since midnight. -/
def parse_time_range (cell_text : String) : List (Nat × Nat) :=
  let text := pyStrip cell_text.data
  if emptyCellGuard text then []
  else
    (splitRuns (subWordI "midnight" "12:00 am" (subWordI "noon" "12:00 pm" text))).filterMap
      tokenParse

/-! ### `parse_from_table` (src/scrape.py lines 87-121)

A table is abstracted as the inner texts the Python code reads off the DOM:
the header cells selected by `thead th, thead td, tr:first-child th,
tr:first-child td`, each subsequent row's cells (`td, th`), and the table's
full `inner_text` (used by the keyword guard in `scrape_pool`). -/

/-- `DAYS` (src/scrape.py line 40). -/
def DAYS : List String :=
  ["Sunday", "Monday", "Tuesday", "Wednesday", "Thursday", "Friday", "Saturday"]

/-- `PUBLIC_SWIM_KEYWORDS` (src/scrape.py line 42). -/
def PUBLIC_SWIM_KEYWORDS : List String := ["public swim", "wave swim"]

/-- `any(k in s.lower() for k in PUBLIC_SWIM_KEYWORDS)`. -/
def keywordHit (s : String) : Bool := PUBLIC_SWIM_KEYWORDS.any (fun k => containsI k s)

/-- The inner loop over `DAY_INDEX.items()` with `break`: first day (in
`DAYS` order) whose lowercase name is a substring of the lowered cell. -/
def dayOfAux (h : List Char) : List (Nat × String) → Option Nat
  | [] => none
  | p :: rest => if isSubstr (lowerL p.2) h then some p.1 else dayOfAux h rest

/-- Day index assigned to one header cell, if any. -/
def dayOf (cell : String) : Option Nat := dayOfAux (lowerL cell) DAYS.enum

/-- `col_to_day` as an association list in ascending column order (Python
dict insertion order). -/
def col_to_day (headerTexts : List String) : List (Nat × Nat) :=
  headerTexts.enum.filterMap (fun p => (dayOf p.2).map (fun d => (p.1, d)))

/-- Lazy `.*?` up to the closing `__` (Python `.` does not cross a newline). -/
def lazyClose : List Char → Option (List Char)
  | '_' :: '_' :: rest => some rest
  | c :: cs => if c = '\n' then none else lazyClose cs
  | [] => none

/-- `\(play free\)` (case-insensitive) at the start of `cs`. -/
def playFreeAt (cs : List Char) : Option (List Char) :=
  if leadsLower "(play free)" cs then some (cs.drop 11) else none

/-- One match of `__.*?__|\(play free\)` at the current position. -/
def cleanMatch (cs : List Char) : Option (List Char) :=
  match cs with
  | '_' :: '_' :: rest =>
      (match lazyClose rest with
       | some r => some r
       | none => playFreeAt cs)
  | _ => playFreeAt cs

/-- `re.sub(r"__.*?__|\(play free\)", "", _, flags=re.I)`, left to right. -/
def cleanSubAux : Nat → List Char → List Char
  | 0, cs => cs
  | _ + 1, [] => []
  | n + 1, c :: cs =>
      match cleanMatch (c :: cs) with
      | some rest => cleanSubAux n rest
      | none => c :: cleanSubAux n cs

/-- Cell cleaning: annotation removal followed by `.strip()`. -/
def cleanCell (s : String) : String := ⟨pyStrip (cleanSubAux s.data.length s.data)⟩

/-- One extracted drop-in session. -/
structure Session where
  day : Nat
  label : String
  start : Nat
  «end» : Nat
  playFree : Bool
deriving DecidableEq, Repr

/-- Abstracted table: header-cell texts, data-row cell texts, full text. -/
structure Table where
  header : List String
  rows : List (List String)
  fullText : String

/-- Sessions from one mapped cell of a relevant row. -/
def tableCellSessions (day_idx : Nat) (row_label : String) (cell_text : String) :
    List Session :=
  let play_free := containsI "play free" cell_text
  let cell_clean := cleanCell cell_text
  (parse_time_range cell_clean).map (fun tr => ⟨day_idx, row_label, tr.1, tr.2, play_free⟩)

/-- The per-row body of the loop in `parse_from_table`. -/
def tableRowSessions (ctd : List (Nat × Nat)) (cells : List String) : List Session :=
  if cells.isEmpty then []
  else
    let row_label := pyStripStr (cells.getD 0 "")
    if keywordHit row_label then
      ctd.flatMap (fun p =>
        if cells.length ≤ p.1 then []
        else tableCellSessions p.2 row_label (pyStripStr (cells.getD p.1 "")))
    else []

/-- `parse_from_table` (src/scrape.py line 87). -/
def parse_from_table (t : Table) : List Session :=
  if t.header.isEmpty then []
  else
    let ctd := col_to_day (t.header.map pyStripStr)
    if ctd.isEmpty then []
    else t.rows.flatMap (tableRowSessions ctd)

/-! ### `parse_from_text` (src/scrape.py lines 124-168) -/

/-- Python `raw_text.split("\n")` (no run merging). -/
def splitNl : List Char → List (List Char)
  | [] => [[]]
  | c :: cs =>
      match splitNl cs with
      | [] => [[c]]
      | h :: t => if c = '\n' then [] :: h :: t else (c :: h) :: t

/-- One day's contribution to the header scan of a line. -/
def dayHit (line : String) (p : Nat × String) : Option (String × Nat) :=
  if isSubstr (lowerL p.2) (lowerL line) then some (p.2, p.1) else none

/-- `found`: the `(day, DAY_INDEX[day])` pairs collected in `DAYS` order. -/
def foundDays (line : String) : List (String × Nat) := DAYS.enum.filterMap (dayHit line)

/-- The header-locating loop: index of the first line whose `foundDays` has
at least 3 entries, together with those pairs. -/
def findHeader : List String → Option (Nat × List (String × Nat))
  | [] => none
  | l :: ls =>
      if 3 ≤ (foundDays l).length then some (0, foundDays l)
      else
        match findHeader ls with
        | some (i, f) => some (i + 1, f)
        | none => none

/-- One delimiter match of `\t+|\s{2,}` at the current position. -/
def wsDelim : List Char → Option (List Char)
  | '\t' :: rest => some (rest.dropWhile (fun c => c = '\t'))
  | c :: c2 :: rest =>
      if pyIsSpace c && pyIsSpace c2 then some ((c2 :: rest).dropWhile pyIsSpace) else none
  | _ => none

/-- `re.split(r"\t+|\s{2,}", _)`, scanning left to right. -/
def wsSplitAux : Nat → List Char → List Char → List String
  | 0, acc, _ => [⟨acc.reverse⟩]
  | _ + 1, acc, [] => [⟨acc.reverse⟩]
  | n + 1, acc, c :: cs =>
      match wsDelim (c :: cs) with
      | some rest => (⟨acc.reverse⟩ : String) :: wsSplitAux n [] rest
      | none => wsSplitAux n (c :: acc) cs

/-- Column splitting of a schedule line on tab runs or 2+ whitespace runs. -/
def wsSplit (s : String) : List String := wsSplitAux s.data.length [] s.data

/-- The per-line body of the loop in `parse_from_text`. -/
def textLineSessions (col_days : List (String × Nat)) (line : String) : List Session :=
  if keywordHit line then
    let parts := wsSplit line
    if parts.length < 2 then []
    else
      let row_label := pyStripStr (parts.getD 0 "")
      let play_free := containsI "play free" line
      col_days.enum.flatMap (fun jp =>
        if jp.1 + 1 < parts.length then
          let cell := cleanCell (parts.getD (jp.1 + 1) "")
          (parse_time_range cell).map (fun tr => ⟨jp.2.2, row_label, tr.1, tr.2, play_free⟩)
        else [])
  else []

/-- `[l.strip() for l in raw_text.split("\n") if l.strip()]`. -/
def textLines (raw_text : String) : List String :=
  (((splitNl raw_text.data).map pyStrip).filter (· ≠ [])).map (fun l => (⟨l⟩ : String))

/-- `parse_from_text` (src/scrape.py line 124). -/
def parse_from_text (raw_text : String) : List Session :=
  match findHeader (textLines raw_text) with
  | none => []
  | some (hidx, col_days) =>
      ((textLines raw_text).drop (hidx + 1)).flatMap (textLineSessions col_days)

/-! ### The strategy cascade of `scrape_pool` (src/scrape.py lines 171-268)

Page loading, debug-artifact writing and DOM querying are external; the
document is abstracted as what the strategies read: whether the raw HTML
contains "Public Swim", the tables, the candidate container texts (in
selector-scan order) and the full page text. -/

/-- The domain keyword guard of strategy 1. -/
def tableGuard (t : Table) : Bool :=
  (["swim", "lane", "aquafit"] : List String).any (fun k => containsI k t.fullText)

/-- Strategy 1: all sessions from keyword-guarded tables, in document order. -/
def tablesStage (tables : List Table) : List Session :=
  tables.flatMap (fun t => if tableGuard t then parse_from_table t else [])

/-- Insertion into a length-sorted list, after entries of equal length
(Python's stable `sort`). -/
def stableInsert (x : String) : List String → List String
  | [] => [x]
  | y :: ys => if y.length < x.length then y :: stableInsert x ys else x :: y :: ys

/-- Stable sort by ascending text length, as `candidates.sort(key=len)`. -/
def stableSortByLen : List String → List String
  | [] => []
  | x :: xs => stableInsert x (stableSortByLen xs)

/-- Strategy 2 candidates: keyword-containing container texts sorted by
ascending length. -/
def candidateTexts (containerTexts : List String) : List String :=
  stableSortByLen (containerTexts.filter keywordHit)

/-- First candidate text whose parse yields any session. -/
def firstNonEmptyParse : List String → Option (List Session)
  | [] => none
  | t :: ts =>
      let s := parse_from_text t
      if s ≠ [] then some s else firstNonEmptyParse ts

/-- Abstracted scraped document for one venue page. -/
structure Document where
  htmlHasPublicSwim : Bool
  tables : List Table
  containerTexts : List String
  fullText : String

/-- The extraction logic of `scrape_pool` (src/scrape.py line 171), after the
external page-load steps. -/
def scrape_pool (doc : Document) : List Session :=
  if doc.htmlHasPublicSwim = false then []
  else
    let sessions := tablesStage doc.tables
    if sessions ≠ [] then sessions
    else
      match firstNonEmptyParse ((candidateTexts doc.containerTexts).take 3) with
      | some s => s
      | none => parse_from_text doc.fullText

/-! ### Claims about `parse_time_str` (C1, C6) -/

/-- C1: whenever the time regex matches the normalized token with hour `h`,
minute `mn` (0 when the `:MM` group is absent) and marker `pm`,
`parse_time_str` returns exactly the specified minutes-since-midnight: hour
12 with am maps to 0, hour 12 with pm stays 12, any other hour with pm gains
12; and the four documented examples hold. -/
theorem c1_parse_time_semantics :
    (∀ (s : String) (h mn : Nat) (pm : Bool),
        matchTime (normalizeChars s.data) = some (h, mn, pm) →
        parse_time_str s =
          some ((if pm then (if h = 12 then 12 else h + 12)
                 else (if h = 12 then 0 else h)) * 60 + mn)) ∧
    parse_time_str "12:00 am" = some 0 ∧
    parse_time_str "12:30 pm" = some 750 ∧
    parse_time_str "9am" = some 540 ∧
    parse_time_str "garbage" = none := by
  refine ⟨?_, by decide, by decide, by decide, by decide⟩
  intro s h mn pm hm
  simp only [parse_time_str, parse_time_str2, hm]
  by_cases hpm : pm = true <;> by_cases h12 : h = 12 <;> simp [hpm, h12]

/-- Witness for `c1_parse_time_semantics` at the token "12:30 pm". -/
theorem c1_parse_time_semantics_witness :
    matchTime (normalizeChars "12:30 pm".data) = some (12, 30, true) ∧
    parse_time_str "12:30 pm" = some 750 := by
  have h : matchTime (normalizeChars "12:30 pm".data) = some (12, 30, true) := by decide
  refine ⟨h, ?_⟩
  have h2 := c1_parse_time_semantics.1 "12:30 pm" 12 30 true h
  simpa using h2

/-- C6 counterexample: the token "13 pm" is accepted by the time regex and
parsed to 1500, outside [0, 1439]. -/
theorem c6_bound_counterexample :
    parse_time_str "13 pm" = some 1500 ∧ ¬ (1500 ≤ 1439) := ⟨by decide, by decide⟩

/-- C6 (amended): whenever the matched hour is at most 12 and the matched
minute at most 59 — true of every genuine 12-hour clock token — the value
returned by `parse_time_str` lies in [0, 1439]. -/
theorem c6_parse_time_bounded (s : String) (h mn : Nat) (pm : Bool)
    (hm : matchTime (normalizeChars s.data) = some (h, mn, pm))
    (hh : h ≤ 12) (hmn : mn ≤ 59) :
    ∃ m, parse_time_str s = some m ∧ m ≤ 1439 := by
  simp only [parse_time_str, parse_time_str2, hm]
  by_cases hpm : pm = true <;> by_cases h12 : h = 12 <;>
    simp [hpm, h12] <;> omega

/-- Witness for `c6_parse_time_bounded` at the token "11:59 pm". -/
theorem c6_parse_time_bounded_witness :
    matchTime (normalizeChars "11:59 pm".data) = some (11, 59, true) ∧
    ∃ m, parse_time_str "11:59 pm" = some m ∧ m ≤ 1439 := by
  refine ⟨by decide, ?_⟩
  exact c6_parse_time_bounded "11:59 pm" 11 59 true (by decide) (by decide) (by decide)

/-! ### Claims about `parse_time_range` (C7, C9, C2) -/

/-- C7 counterexample: `parse_time_range` does not strip "(play free)"
annotations, and its range regex is anchored at each token's start, so a
leading annotation suppresses the range: the claimed invariance under the
presence of the annotation fails. -/
theorem c7_annotation_counterexample :
    parse_time_range "(play free) 1 - 2 pm" = [] ∧
    parse_time_range "1 - 2 pm" = [(780, 840)] ∧
    ([] : List (Nat × Nat)) ≠ [(780, 840)] := ⟨by decide, by decide, by decide⟩

/-- C7 (amended): outside the empty-cell guard, `parse_time_range` first
replaces whole-word "noon" by "12:00 pm" and then whole-word "midnight" by
"12:00 am" (case-insensitively, word-boundary matched, as the `noontime`
non-replacement shows) before splitting and parsing; annotation stripping is
done by the callers, but a "(play free)" annotation written after a range
leaves the result unchanged, as in the documented example. -/
theorem c7_normalization :
    (∀ s : String, emptyCellGuard (pyStrip s.data) = false →
        parse_time_range s =
          (splitRuns (subWordI "midnight" "12:00 am"
            (subWordI "noon" "12:00 pm" (pyStrip s.data)))).filterMap tokenParse) ∧
    subWordI "noon" "12:00 pm" "Noon - 1 pm".data = "12:00 pm - 1 pm".data ∧
    subWordI "noon" "12:00 pm" "noontime".data = "noontime".data ∧
    parse_time_range "Noon - 1 pm" = [(720, 780)] ∧
    parse_time_range "midnight - 1 am" = [(0, 60)] ∧
    parse_time_range "1 - 2 pm (play free)" = [(780, 840)] ∧
    parse_time_range "1 - 2 pm (play free)" = parse_time_range "1 - 2 pm" := by
  refine ⟨?_, by decide, by decide, by decide, by decide, by decide, by decide⟩
  intro s hg
  simp [parse_time_range, hg]

/-- Witness for `c7_normalization` at the cell "Noon - 1 pm". -/
theorem c7_normalization_witness :
    emptyCellGuard (pyStrip "Noon - 1 pm".data) = false ∧
    parse_time_range "Noon - 1 pm" =
      (splitRuns (subWordI "midnight" "12:00 am"
        (subWordI "noon" "12:00 pm" (pyStrip "Noon - 1 pm".data)))).filterMap tokenParse := by
  exact ⟨by decide, c7_normalization.1 "Noon - 1 pm" (by decide)⟩

/-- C9: each range token is parsed independently — a token on which
`tokenParse` fails contributes nothing while every well-formed token in the
same cell still yields its pair, in token order; and the documented mixed
cell parses to exactly the two well-formed ranges.  (`parse_time_range` is a
total function: no input raises.) -/
theorem c9_tokens_independent :
    (∀ (ts1 ts2 : List (List Char)) (bad : List Char), tokenParse bad = none →
        (ts1 ++ bad :: ts2).filterMap tokenParse =
          ts1.filterMap tokenParse ++ ts2.filterMap tokenParse) ∧
    parse_time_range "garbage, 1 - 2 pm, also garbage\n3 - 4 pm" =
      [(780, 840), (900, 960)] := by
  refine ⟨?_, by decide⟩
  intro ts1 ts2 bad hb
  simp [List.filterMap_append, List.filterMap_cons, hb]

/-- Witness for `c9_tokens_independent` with the malformed token "garbage"
between two well-formed tokens. -/
theorem c9_tokens_independent_witness :
    tokenParse "garbage".data = none ∧
    (["1 - 2 pm".data] ++ "garbage".data :: ["3 - 4 pm".data]).filterMap tokenParse =
      ["1 - 2 pm".data].filterMap tokenParse ++ ["3 - 4 pm".data].filterMap tokenParse := by
  have hb : tokenParse "garbage".data = none := by decide
  exact ⟨hb, c9_tokens_independent.1 ["1 - 2 pm".data] ["3 - 4 pm".data] "garbage".data hb⟩


/-- A marker occurrence anywhere in `ys` survives prepending `xs`. -/
lemma containsMarkerI_append_right (xs ys : List Char)
    (h : containsMarkerI ys = true) : containsMarkerI (xs ++ ys) = true := by
  induction xs with
  | nil => simpa using h
  | cons x xs ih =>
      rw [List.cons_append]
      cases hxy : xs ++ ys with
      | nil =>
          rcases List.append_eq_nil.mp hxy with ⟨_, h2⟩
          subst h2
          simp [containsMarkerI] at h
      | cons y l =>
          rw [containsMarkerI, ← hxy, ih, Bool.or_true]

/-- A successful `\s*[ap]m` match captures text containing a marker. -/
lemma matchMarkerI_contains {tl cap rest : List Char}
    (h : matchMarkerI tl = some (cap, rest)) : containsMarkerI cap = true := by
  unfold matchMarkerI at h
  split at h
  next c1 c2 r _ =>
    split at h
    next hc =>
      obtain ⟨h1, _⟩ := Prod.mk.injEq _ _ _ _ ▸ Option.some.inj h
      subst h1
      apply containsMarkerI_append_right
      simp [containsMarkerI, hc]
    next => exact absurd h (by simp)
  next => exact absurd h (by simp)

/-- The end capture of `g2FromNoMin` contains a marker. -/
lemma g2FromNoMin_contains {capH tl cap : List Char}
    (h : g2FromNoMin capH tl = some cap) : containsMarkerI cap = true := by
  unfold g2FromNoMin at h
  cases hm : matchMarkerI tl with
  | none => rw [hm] at h; exact absurd h (by simp)
  | some pr =>
      obtain ⟨capA, r⟩ := pr
      rw [hm] at h
      dsimp only at h
      obtain rfl := Option.some.inj h
      exact containsMarkerI_append_right _ _ (matchMarkerI_contains hm)

/-- The end capture of `g2From` contains a marker. -/
lemma g2From_contains {capH tl cap : List Char}
    (h : g2From capH tl = some cap) : containsMarkerI cap = true := by
  unfold g2From at h
  cases hmn : matchMinuteC tl with
  | none => rw [hmn] at h; exact g2FromNoMin_contains h
  | some pr =>
      obtain ⟨capM, tl2⟩ := pr
      rw [hmn] at h
      dsimp only at h
      cases hmk : matchMarkerI tl2 with
      | none => rw [hmk] at h; exact g2FromNoMin_contains h
      | some pr2 =>
          obtain ⟨capA, r2⟩ := pr2
          rw [hmk] at h
          dsimp only at h
          obtain rfl := Option.some.inj h
          rw [List.append_assoc]
          exact containsMarkerI_append_right _ _
            (containsMarkerI_append_right _ _ (matchMarkerI_contains hmk))

/-- The end capture of `matchG2` contains a marker. -/
lemma matchG2_contains {tl cap : List Char}
    (h : matchG2 tl = some cap) : containsMarkerI cap = true := by
  unfold matchG2 at h
  split at h
  next c1 rest =>
    split at h
    · cases rest with
      | nil => exact g2From_contains h
      | cons c2 rest2 =>
          dsimp only at h
          split at h
          · cases h2 : g2From [c1, c2] rest2 with
            | none => rw [h2] at h; exact g2From_contains h
            | some r =>
                rw [h2] at h
                obtain rfl := Option.some.inj h
                exact g2From_contains h2
          · exact g2From_contains h
    · exact absurd h (by simp)
  next => exact absurd h (by simp)

/-- The end capture of `afterG1` contains a marker. -/
lemma afterG1_contains {cap1 tl a b : List Char}
    (h : afterG1 cap1 tl = some (a, b)) : containsMarkerI b = true := by
  unfold afterG1 at h
  split at h
  next c rest _ =>
    split at h
    · cases h2 : matchG2 (rest.dropWhile pyIsSpace) with
      | none => rw [h2] at h; exact absurd h (by simp)
      | some cap2 =>
          rw [h2] at h
          obtain ⟨_, hb⟩ := Prod.mk.injEq _ _ _ _ ▸ Option.some.inj h
          subst hb
          exact matchG2_contains h2
    · exact absurd h (by simp)
  next => exact absurd h (by simp)

/-- The end capture of `g1FromNoMin` contains a marker. -/
lemma g1FromNoMin_contains {capH tl a b : List Char}
    (h : g1FromNoMin capH tl = some (a, b)) : containsMarkerI b = true := by
  unfold g1FromNoMin at h
  cases hm : matchMarkerI tl with
  | none => rw [hm] at h; exact afterG1_contains h
  | some pr =>
      obtain ⟨capA, tl2⟩ := pr
      rw [hm] at h
      dsimp only at h
      cases h2 : afterG1 (capH ++ capA) tl2 with
      | none => rw [h2] at h; exact afterG1_contains h
      | some r =>
          rw [h2] at h
          have hr := Option.some.inj h
          subst hr
          exact afterG1_contains h2

/-- The end capture of `g1From` contains a marker. -/
lemma g1From_contains {capH tl a b : List Char}
    (h : g1From capH tl = some (a, b)) : containsMarkerI b = true := by
  unfold g1From at h
  cases hmn : matchMinuteC tl with
  | none => rw [hmn] at h; exact g1FromNoMin_contains h
  | some pr =>
      obtain ⟨capM, tl2⟩ := pr
      rw [hmn] at h
      dsimp only at h
      cases h2 : g1FromNoMin (capH ++ capM) tl2 with
      | none => rw [h2] at h; exact g1FromNoMin_contains h
      | some r =>
          rw [h2] at h
          have hr := Option.some.inj h
          subst hr
          exact g1FromNoMin_contains h2

/-- The END capture of a successful range match contains an am/pm marker. -/
lemma matchRange_end_contains {tl a b : List Char}
    (h : matchRange tl = some (a, b)) : containsMarkerI b = true := by
  unfold matchRange at h
  split at h
  next c1 rest =>
    split at h
    · cases rest with
      | nil => exact g1From_contains h
      | cons c2 rest2 =>
          dsimp only at h
          split at h
          · cases h2 : g1From [c1, c2] rest2 with
            | none => rw [h2] at h; exact g1From_contains h
            | some r =>
                rw [h2] at h
                have hr := Option.some.inj h
                subst hr
                exact g1From_contains h2
          · exact g1From_contains h
    · exact absurd h (by simp)
  next => exact absurd h (by simp)

/-- Where a marker occurs, `re.search` finds one. -/
lemma findMarkerI_of_contains : ∀ cs : List Char, containsMarkerI cs = true →
    ∃ mk, findMarkerI cs = some mk := by
  intro cs
  induction cs with
  | nil => intro h; simp [containsMarkerI] at h
  | cons c1 tail ih =>
      intro h
      cases tail with
      | nil => simp [containsMarkerI] at h
      | cons c2 rest =>
          rw [containsMarkerI] at h
          by_cases hp : ((c1.toLower = 'a' || c1.toLower = 'p') && c2.toLower = 'm') = true
          · exact ⟨[c1, c2], by simp [findMarkerI, hp]⟩
          · rcases Bool.or_eq_true _ _ |>.mp h with hp2 | hrec
            · exact absurd hp2 hp
            · rcases ih hrec with ⟨mk, hmk⟩
              exact ⟨mk, by rw [findMarkerI, if_neg (by simpa using hp)]; exact hmk⟩

/-- C2: the END endpoint of every range token matched by the range regex
carries an explicit am/pm marker, so marker inheritance always finds one; a
START capture without a marker inherits END's first marker — a space and the
marker characters are appended before parsing; and the documented cell
parses to its two ranges in token order. -/
theorem c2_marker_inheritance :
    (∀ (p c1 c2 : List Char), matchRange p = some (c1, c2) →
        containsMarkerI c2 = true ∧ ∃ mk, findMarkerI c2 = some mk) ∧
    (∀ (c1 c2 mk : List Char), containsMarkerI c1 = false → findMarkerI c2 = some mk →
        startWithMarker c1 c2 = c1 ++ ' ' :: mk) ∧
    parse_time_range "9:30 - 11 am, 4:30 - 9 pm" = [(570, 660), (990, 1260)] := by
  refine ⟨?_, ?_, by decide⟩
  · intro p c1 c2 h
    have hc := matchRange_end_contains h
    exact ⟨hc, findMarkerI_of_contains c2 hc⟩
  · intro c1 c2 mk h1 h2
    simp [startWithMarker, h1, h2]

/-- Witness for `c2_marker_inheritance` at the token "9 - 11 am". -/
theorem c2_marker_inheritance_witness :
    matchRange "9 - 11 am".data = some ("9".data, "11 am".data) ∧
    (containsMarkerI "11 am".data = true ∧ ∃ mk, findMarkerI "11 am".data = some mk) ∧
    (containsMarkerI "9".data = false ∧
      startWithMarker "9".data "11 am".data = "9".data ++ ' ' :: "am".data) := by
  have h : matchRange "9 - 11 am".data = some ("9".data, "11 am".data) := by decide
  exact ⟨h, c2_marker_inheritance.1 _ _ _ h,
    by decide, c2_marker_inheritance.2.1 "9".data "11 am".data "am".data (by decide) (by decide)⟩

/-! ### Claim C8: the day-column mapper -/

/-- Following the spec's words for DayColumnMapper: the first of the seven
canonical day names, Sunday through Saturday in that order, that occurs as a
case-insensitive substring of the cell text. -/
def map_columns_firstDay (cell : String) : Option Nat :=
  if isSubstr (lowerL "Sunday") (lowerL cell) then some 0
  else if isSubstr (lowerL "Monday") (lowerL cell) then some 1
  else if isSubstr (lowerL "Tuesday") (lowerL cell) then some 2
  else if isSubstr (lowerL "Wednesday") (lowerL cell) then some 3
  else if isSubstr (lowerL "Thursday") (lowerL cell) then some 4
  else if isSubstr (lowerL "Friday") (lowerL cell) then some 5
  else if isSubstr (lowerL "Saturday") (lowerL cell) then some 6
  else none

/-- C8: each header cell is assigned, independently and in header order, the
first of the seven canonical day names occurring case-insensitively in it;
cells matching no day name are omitted from the mapping; and the documented
header maps to exactly {1↦1, 2↦2, 4↦5}. -/
theorem c8_day_column_mapping :
    (∀ cell : String, dayOf cell = map_columns_firstDay cell) ∧
    (∀ (hs : List String) (i d : Nat),
        (i, d) ∈ col_to_day hs ↔ ∃ cell, hs[i]? = some cell ∧ dayOf cell = some d) ∧
    col_to_day ["Activity", "Monday", "Tuesday", "", "Friday"] = [(1, 1), (2, 2), (4, 5)] := by
  refine ⟨fun cell => rfl, ?_, by decide⟩
  intro hs i d
  simp only [col_to_day, List.mem_filterMap]
  constructor
  · rintro ⟨⟨j, cell⟩, hmem, hf⟩
    rw [Option.map_eq_some'] at hf
    rcases hf with ⟨d', hd', heq⟩
    obtain ⟨rfl, rfl⟩ := Prod.mk.injEq _ _ _ _ ▸ heq
    exact ⟨cell, by simpa using List.mk_mem_enum_iff_getElem?.mp hmem, hd'⟩
  · rintro ⟨cell, hget, hday⟩
    exact ⟨(i, cell), List.mk_mem_enum_iff_getElem?.mpr (by simpa using hget),
      by simp [hday]⟩

/-! ### Claim C10: ragged rows in the table extractor -/

/-- Entries on which the body is empty can be dropped from a `flatMap`. -/
lemma flatMap_filter_of_empty {α β : Type} (l : List α) (f : α → List β) (q : α → Bool)
    (h : ∀ a, q a = false → f a = []) : l.flatMap f = (l.filter q).flatMap f := by
  induction l with
  | nil => rfl
  | cons x xs ih =>
      cases hq : q x
      · simp [List.filter_cons, hq, h x hq, ih]
      · simp [List.filter_cons, hq, ih]

/-- C10: a row with no cells contributes nothing; dropping from the column
map every column index that is out of range for the row leaves the row's
sessions unchanged (so only missing columns are skipped and the in-range
columns are still processed, with no out-of-range cell access); and the
documented ragged row still yields its in-range session. -/
theorem c10_ragged_rows :
    (∀ ctd : List (Nat × Nat), tableRowSessions ctd [] = []) ∧
    (∀ (ctd : List (Nat × Nat)) (cells : List String),
        tableRowSessions ctd cells =
          tableRowSessions (ctd.filter (fun p => p.1 < cells.length)) cells) ∧
    parse_from_table ⟨["Activity", "Sunday", "Monday"], [["Public Swim", "9 - 11 am"]], ""⟩ =
      [⟨0, "Public Swim", 540, 660, false⟩] := by
  refine ⟨fun ctd => rfl, ?_, by decide⟩
  intro ctd cells
  simp only [tableRowSessions]
  cases he : cells.isEmpty
  · simp only [Bool.false_eq_true, if_false]
    cases hk : keywordHit (pyStripStr (cells.getD 0 ""))
    · simp
    · simp only [if_true]
      apply flatMap_filter_of_empty
      intro p hp
      rw [if_pos]
      simpa using hp
  · simp

/-! ### Claim C5: the scope of the play-free flag -/

/-- Full provenance of a session of one table cell: its day, label, flag and
times all come from that very cell. -/
lemma tableCellSessions_mem {di : Nat} {lbl cell : String} {s : Session}
    (h : s ∈ tableCellSessions di lbl cell) :
    s.day = di ∧ s.label = lbl ∧
      (s.start, s.«end») ∈ parse_time_range (cleanCell cell) ∧
      s.playFree = containsI "play free" cell := by
  unfold tableCellSessions at h
  rcases List.mem_map.mp h with ⟨tr, htr, rfl⟩
  exact ⟨rfl, rfl, htr, rfl⟩

/-- Full provenance of a session of a table row: there is a single mapped
column index `ci` such that the session's day is the day mapped to `ci`, its
times were parsed from the cleaned cell at `ci`, and its flag is the
"play free" containment of that same stripped, pre-cleaning cell. -/
lemma tableRowSessions_mem {ctd : List (Nat × Nat)} {cells : List String} {s : Session}
    (h : s ∈ tableRowSessions ctd cells) :
    ∃ ci, (ci, s.day) ∈ ctd ∧ ci < cells.length ∧
      s.label = pyStripStr (cells.getD 0 "") ∧
      (s.start, s.«end») ∈ parse_time_range (cleanCell (pyStripStr (cells.getD ci ""))) ∧
      s.playFree = containsI "play free" (pyStripStr (cells.getD ci "")) := by
  simp only [tableRowSessions] at h
  split at h
  · exact absurd h (List.not_mem_nil s)
  · split at h
    · rcases List.mem_flatMap.mp h with ⟨p, hp, hcell⟩
      split at hcell
      · exact absurd hcell (List.not_mem_nil s)
      · rcases tableCellSessions_mem hcell with ⟨hday, hlbl, htr, hpf⟩
        exact ⟨p.1, by rw [hday]; exact hp, by omega, hlbl, htr, hpf⟩
    · exact absurd h (List.not_mem_nil s)

/-- Full provenance of a session of a text schedule line: there is a single
recorded-day position `j` such that the session's day is the `j`-th recorded
day, its times were parsed from the cleaned token at list-position `j + 1`
(its own cell), while its flag is the "play free" containment of the whole
line. -/
lemma textLineSessions_mem {cd : List (String × Nat)} {line : String} {s : Session}
    (h : s ∈ textLineSessions cd line) :
    ∃ j dn, (j, (dn, s.day)) ∈ cd.enum ∧ j + 1 < (wsSplit line).length ∧
      s.label = pyStripStr ((wsSplit line).getD 0 "") ∧
      (s.start, s.«end») ∈ parse_time_range (cleanCell ((wsSplit line).getD (j + 1) "")) ∧
      s.playFree = containsI "play free" line := by
  simp only [textLineSessions] at h
  split at h
  · split at h
    · exact absurd h (List.not_mem_nil s)
    · rcases List.mem_flatMap.mp h with ⟨jp, hjp, hcell⟩
      split at hcell
      · rcases List.mem_map.mp hcell with ⟨tr, htr, rfl⟩
        exact ⟨jp.1, jp.2.1, hjp, by omega, rfl, htr, rfl⟩
      · exact absurd hcell (List.not_mem_nil s)
  · exact absurd h (List.not_mem_nil s)

/-- C5 counterexample: in the text extractor the flag is computed from the
whole line, so a "(play free)" in one cell marks the sessions of every cell
in that line: the first emitted session has `playFree = true` although its
own cell, "1 - 2 pm", does not contain "play free". -/
theorem c5_playfree_counterexample :
    parse_from_text
        "Sunday Monday Tuesday\nPublic Swim  1 - 2 pm  3 - 4 pm (play free)  5 - 6 pm" =
      [⟨0, "Public Swim", 780, 840, true⟩, ⟨1, "Public Swim", 900, 960, true⟩,
       ⟨2, "Public Swim", 1020, 1080, true⟩] ∧
    containsI "play free" "1 - 2 pm" = false := ⟨by decide, by decide⟩

/-- C5 (amended): every session of the table extractor takes `playFree` from
its own cell — the cell at the mapped column `ci` of its row that produced
the session's day, label and (via `parse_time_range` after cleaning) its
start and end, stripped but pre-cleaning; every session of the text-block
extractor takes `playFree` from its whole schedule line, not from its own
cell — the token at list-position `j + 1` that produced its day (the `j`-th
recorded day), label, start and end. -/
theorem c5_playfree_scope :
    (∀ (t : Table) (s : Session), s ∈ parse_from_table t →
        ∃ cells, cells ∈ t.rows ∧ ∃ ci,
          (ci, s.day) ∈ col_to_day (t.header.map pyStripStr) ∧ ci < cells.length ∧
          s.label = pyStripStr (cells.getD 0 "") ∧
          (s.start, s.«end») ∈ parse_time_range (cleanCell (pyStripStr (cells.getD ci ""))) ∧
          s.playFree = containsI "play free" (pyStripStr (cells.getD ci ""))) ∧
    (∀ (raw : String) (s : Session), s ∈ parse_from_text raw →
        ∃ hidx col_days, findHeader (textLines raw) = some (hidx, col_days) ∧
          ∃ line, line ∈ (textLines raw).drop (hidx + 1) ∧ ∃ j dn,
            (j, (dn, s.day)) ∈ col_days.enum ∧ j + 1 < (wsSplit line).length ∧
            s.label = pyStripStr ((wsSplit line).getD 0 "") ∧
            (s.start, s.«end») ∈ parse_time_range (cleanCell ((wsSplit line).getD (j + 1) "")) ∧
            s.playFree = containsI "play free" line) := by
  constructor
  · intro t s hmem
    simp only [parse_from_table] at hmem
    split at hmem
    · exact absurd hmem (List.not_mem_nil s)
    · split at hmem
      · exact absurd hmem (List.not_mem_nil s)
      · rcases List.mem_flatMap.mp hmem with ⟨cells, hcells, hrow⟩
        rcases tableRowSessions_mem hrow with ⟨ci, hci, hlt, hlbl, htr, hpf⟩
        exact ⟨cells, hcells, ci, hci, hlt, hlbl, htr, hpf⟩
  · intro raw s hmem
    unfold parse_from_text at hmem
    split at hmem
    · exact absurd hmem (List.not_mem_nil s)
    next hidx col_days heq =>
      rcases List.mem_flatMap.mp hmem with ⟨line, hline, hs⟩
      rcases textLineSessions_mem hs with ⟨j, dn, hjd, hjlt, hlbl, htr, hpf⟩
      exact ⟨hidx, col_days, heq, line, hline, j, dn, hjd, hjlt, hlbl, htr, hpf⟩

/-- The end-to-end example table (also a spec §8 test case). -/
def exTable : Table :=
  ⟨["Activity", "Sunday", "Monday"], [["Public Swim", "9 - 11 am", "noon - 1 pm"]],
    "Activity Sunday Monday Public Swim 9 - 11 am noon - 1 pm"⟩

/-- Witness for `c5_playfree_scope` on a concrete table and a concrete text
document. -/
theorem c5_playfree_scope_witness :
    ((⟨0, "Public Swim", 540, 660, false⟩ : Session) ∈ parse_from_table exTable ∧
      ∃ cells, cells ∈ exTable.rows ∧ ∃ ci,
        (ci, (0 : Nat)) ∈ col_to_day (exTable.header.map pyStripStr) ∧ ci < cells.length ∧
        "Public Swim" = pyStripStr (cells.getD 0 "") ∧
        ((540, 660) : Nat × Nat) ∈ parse_time_range (cleanCell (pyStripStr (cells.getD ci ""))) ∧
        false = containsI "play free" (pyStripStr (cells.getD ci ""))) ∧
    ((⟨0, "public swim", 780, 840, false⟩ : Session) ∈
        parse_from_text "Sunday Monday Tuesday\npublic swim  1 - 2 pm  2 - 3 pm  3 - 4 pm" ∧
      ∃ hidx col_days,
        findHeader (textLines "Sunday Monday Tuesday\npublic swim  1 - 2 pm  2 - 3 pm  3 - 4 pm") =
          some (hidx, col_days) ∧
        ∃ line,
          line ∈ (textLines "Sunday Monday Tuesday\npublic swim  1 - 2 pm  2 - 3 pm  3 - 4 pm").drop
            (hidx + 1) ∧ ∃ j dn,
          (j, (dn, (0 : Nat))) ∈ col_days.enum ∧ j + 1 < (wsSplit line).length ∧
          "public swim" = pyStripStr ((wsSplit line).getD 0 "") ∧
          ((780, 840) : Nat × Nat) ∈ parse_time_range (cleanCell ((wsSplit line).getD (j + 1) "")) ∧
          false = containsI "play free" line) := by
  have h1 : (⟨0, "Public Swim", 540, 660, false⟩ : Session) ∈ parse_from_table exTable := by
    decide
  have h2 : (⟨0, "public swim", 780, 840, false⟩ : Session) ∈
      parse_from_text "Sunday Monday Tuesday\npublic swim  1 - 2 pm  2 - 3 pm  3 - 4 pm" := by
    decide
  exact ⟨⟨h1, c5_playfree_scope.1 exTable _ h1⟩, ⟨h2, c5_playfree_scope.2 _ _ h2⟩⟩

/-! ### Claim C4: the text-block header scan -/

/-- `findHeader` finds the first line with at least 3 day names, and returns
that line's `foundDays` pairs. -/
lemma findHeader_first : ∀ (lines : List String) (i : Nat) (f : List (String × Nat)),
    findHeader lines = some (i, f) →
    f = foundDays (lines.getD i "") ∧ 3 ≤ (foundDays (lines.getD i "")).length ∧
      ∀ i' < i, (foundDays (lines.getD i' "")).length < 3 := by
  intro lines
  induction lines with
  | nil => intro i f h; simp [findHeader] at h
  | cons l ls ih =>
      intro i f h
      rw [findHeader] at h
      by_cases hc : 3 ≤ (foundDays l).length
      · rw [if_pos hc] at h
        obtain ⟨rfl, rfl⟩ := Prod.mk.injEq _ _ _ _ ▸ Option.some.inj h
        exact ⟨rfl, by simpa using hc, by omega⟩
      · rw [if_neg hc] at h
        cases hrec : findHeader ls with
        | none => rw [hrec] at h; exact absurd h (by simp)
        | some pr =>
            obtain ⟨j, g⟩ := pr
            rw [hrec] at h
            dsimp only at h
            obtain ⟨rfl, rfl⟩ := Prod.mk.injEq _ _ _ _ ▸ Option.some.inj h
            rcases ih j g hrec with ⟨h1, h2, h3⟩
            refine ⟨by simpa using h1, by simpa using h2, ?_⟩
            intro i' hi'
            cases i' with
            | zero => simpa using Nat.lt_of_not_le hc
            | succ k => simpa using h3 k (by omega)

/-- Every pair produced from `enumFrom k` carries an index at least `k`. -/
lemma dayHit_enumFrom_le (line : String) : ∀ (ds : List String) (k : Nat) (x : String × Nat),
    x ∈ (List.enumFrom k ds).filterMap (dayHit line) → k ≤ x.2 := by
  intro ds
  induction ds with
  | nil => intro k x hx; simp at hx
  | cons d ds ih =>
      intro k x hx
      rw [List.enumFrom_cons, List.filterMap_cons] at hx
      cases hfd : dayHit line (k, d) with
      | none =>
          rw [hfd] at hx
          exact Nat.le_of_succ_le (ih (k + 1) x hx)
      | some y =>
          rw [hfd] at hx
          rcases List.mem_cons.mp hx with rfl | hx
          · unfold dayHit at hfd
            split at hfd
            · obtain rfl := Option.some.inj hfd
              simp
            · exact absurd hfd (by simp)
          · exact Nat.le_of_succ_le (ih (k + 1) x hx)

/-- The day pairs collected from a line are strictly increasing in their day
index, i.e. they appear in canonical Sunday-to-Saturday order. -/
lemma foundDays_pairwise_aux (line : String) : ∀ (ds : List String) (k : Nat),
    ((List.enumFrom k ds).filterMap (dayHit line)).Pairwise (fun a b => a.2 < b.2) := by
  intro ds
  induction ds with
  | nil => intro k; simp
  | cons d ds ih =>
      intro k
      rw [List.enumFrom_cons, List.filterMap_cons]
      cases hfd : dayHit line (k, d) with
      | none => exact ih (k + 1)
      | some x =>
          refine List.Pairwise.cons ?_ (ih (k + 1))
          intro b hb
          have hk := dayHit_enumFrom_le line ds (k + 1) b hb
          have hx : x.2 = k := by
            unfold dayHit at hfd
            split at hfd
            · obtain rfl := Option.some.inj hfd; rfl
            · exact absurd hfd (by simp)
          omega

/-- C4 counterexample: on a header line listing days out of canonical order
("Monday Tuesday Sunday"), the code pairs the first data token with Sunday
(day 0) — the pairs are recorded in `DAYS` order, not in left-to-right order
of appearance, which would pair it with Monday (day 1). -/
theorem c4_header_order_counterexample :
    parse_from_text "Monday Tuesday Sunday\nPublic Swim  1 - 2 pm  3 - 4 pm  5 - 6 pm" =
      [⟨0, "Public Swim", 780, 840, false⟩, ⟨1, "Public Swim", 900, 960, false⟩,
       ⟨2, "Public Swim", 1020, 1080, false⟩] ∧
    parse_from_text "Monday Tuesday Sunday\nPublic Swim  1 - 2 pm  3 - 4 pm  5 - 6 pm" ≠
      [⟨1, "Public Swim", 780, 840, false⟩, ⟨2, "Public Swim", 900, 960, false⟩,
       ⟨0, "Public Swim", 1020, 1080, false⟩] := ⟨by decide, by decide⟩

/-- C4 (amended): the header line is the first line containing at least 3
(distinct) day names, but the (day name, day index) pairs are recorded in
canonical `DAYS` order (Sunday through Saturday — their day indices are
strictly increasing), not in left-to-right order of appearance; token at
list-position j+1 of a keyword line is paired with the j-th recorded day, as
the concrete out-of-order header shows. -/
theorem c4_header_canonical_order :
    (∀ (lines : List String) (i : Nat) (f : List (String × Nat)),
        findHeader lines = some (i, f) →
        f = foundDays (lines.getD i "") ∧ 3 ≤ (foundDays (lines.getD i "")).length ∧
          ∀ i' < i, (foundDays (lines.getD i' "")).length < 3) ∧
    (∀ line : String, (foundDays line).Pairwise (fun a b => a.2 < b.2)) ∧
    parse_from_text "Monday Tuesday Sunday\nPublic Swim  1 - 2 pm  3 - 4 pm  5 - 6 pm" =
      [⟨0, "Public Swim", 780, 840, false⟩, ⟨1, "Public Swim", 900, 960, false⟩,
       ⟨2, "Public Swim", 1020, 1080, false⟩] := by
  refine ⟨findHeader_first, ?_, by decide⟩
  intro line
  exact foundDays_pairwise_aux line DAYS 0

/-- Witness for `c4_header_canonical_order` on concrete lines. -/
theorem c4_header_canonical_order_witness :
    findHeader ["no days here", "Monday Tuesday Sunday", "Public Swim  1 - 2 pm"] =
      some (1, [("Sunday", 0), ("Monday", 1), ("Tuesday", 2)]) ∧
    ([("Sunday", 0), ("Monday", 1), ("Tuesday", 2)] =
        foundDays (["no days here", "Monday Tuesday Sunday",
          "Public Swim  1 - 2 pm"].getD 1 "") ∧
      3 ≤ (foundDays (["no days here", "Monday Tuesday Sunday",
          "Public Swim  1 - 2 pm"].getD 1 "")).length ∧
      ∀ i' < 1, (foundDays (["no days here", "Monday Tuesday Sunday",
          "Public Swim  1 - 2 pm"].getD i' "")).length < 3) := by
  have h : findHeader ["no days here", "Monday Tuesday Sunday", "Public Swim  1 - 2 pm"] =
      some (1, [("Sunday", 0), ("Monday", 1), ("Tuesday", 2)]) := by decide
  exact ⟨h, c4_header_canonical_order.1 _ _ _ h⟩

/-! ### Claim C3: the extraction strategy cascade -/

/-- C3: once the page guard passes, if the table stage yields any session,
`scrape_pool` returns exactly those sessions and its result does not depend
on the container texts or full page text (the text-block extractor is never
consulted); if the table stage yields none, the result is the text fallback:
the first of the 3 smallest keyword-bearing container candidates whose parse
is non-empty, else the parse of the full page text. -/
theorem c3_orchestrator_short_circuit :
    (∀ (tables : List Table) (cts cts' : List String) (ft ft' : String),
        tablesStage tables ≠ [] →
        scrape_pool ⟨true, tables, cts, ft⟩ = tablesStage tables ∧
        scrape_pool ⟨true, tables, cts, ft⟩ = scrape_pool ⟨true, tables, cts', ft'⟩) ∧
    (∀ (tables : List Table) (cts : List String) (ft : String),
        tablesStage tables = [] →
        scrape_pool ⟨true, tables, cts, ft⟩ =
          match firstNonEmptyParse ((candidateTexts cts).take 3) with
          | some s => s
          | none => parse_from_text ft) := by
  constructor
  · intro tables cts cts' ft ft' hne
    constructor <;> simp [scrape_pool, hne]
  · intro tables cts ft he
    simp [scrape_pool, he]

/-- Witness for `c3_orchestrator_short_circuit`: a document whose table
yields sessions short-circuits; an empty table stage falls back to text. -/
theorem c3_orchestrator_short_circuit_witness :
    tablesStage [exTable] ≠ [] ∧
    scrape_pool ⟨true, [exTable], ["Sunday Monday Tuesday\npublic swim  1 - 2 pm  2 - 3 pm  3 - 4 pm"], "x"⟩ =
      tablesStage [exTable] ∧
    tablesStage [] = ([] : List Session) ∧
    scrape_pool ⟨true, [], ["Sunday Monday Tuesday\npublic swim  1 - 2 pm  2 - 3 pm  3 - 4 pm"], "x"⟩ =
      (match firstNonEmptyParse ((candidateTexts
          ["Sunday Monday Tuesday\npublic swim  1 - 2 pm  2 - 3 pm  3 - 4 pm"]).take 3) with
        | some s => s
        | none => parse_from_text "x") := by
  have h1 : tablesStage [exTable] ≠ [] := by decide
  exact ⟨h1,
    (c3_orchestrator_short_circuit.1 [exTable] _ ["y"] "x" "z" h1).1,
    rfl,
    c3_orchestrator_short_circuit.2 [] _ "x" rfl⟩
